import Mathlib

/-!
Verification of the session-reconstruction and event-classification core of
the lambda-starship-user-stats repository (src/datatypes.go), shallowly
embedded in Lean.

Modelling conventions:
* Go strings are Lean `String`s, processed as `List Char`.
* The regular expressions in `errPatterns` use only literal text, `.`, `(.*)`,
  `(.)` and `([^\s]+)`; they are embedded as a small `Regex` AST together with
  a backtracking matcher whose preference order (leftmost start, greedy
  repetition) matches Go's `regexp` semantics for these patterns.
  `MatchString` is `matchB`, `FindString` is `findStringStr`.
* `errPatterns` is a Go map, so iteration order is not fixed; every function
  of the code that ranges over it is parameterised by the iteration order,
  constrained to be a permutation of the entry list.
* `sort.Slice` is not a stable sort and its exact algorithm is
  version-dependent; it is modelled by its documented contract: the result is
  a permutation of the input that is sorted by the comparison function.
* Timestamps are `int64` values used only for comparison, modelled as `Int`.
* The nil-pointer dereference in `commandAndErrors` (reading `*lastCmd` when
  `lastCmd == nil`) is modelled by returning `none` (a crash).
-/

/-- Go's `\s` character class: `[\t\n\f\r ]`. -/
def isGoSpace (c : Char) : Bool :=
  c == Char.ofNat 9 || c == Char.ofNat 10 || c == Char.ofNat 12 ||
  c == Char.ofNat 13 || c == Char.ofNat 32

/-- The newline character, which `.` does not match in Go regexps. -/
def newlineChar : Char := Char.ofNat 10

/-- The single-quote character (used in the `UnknownCallable` pattern). -/
def quoteChar : Char := Char.ofNat 39

/-- Abstract syntax of the regular-expression fragment used by `errPatterns`:
literal characters, `.`, greedy `(.*)`, greedy `([^\s]+)` and concatenation.
Capture groups only delimit subexpressions for these patterns, so they are
represented by the grouped subexpression itself. -/
inductive Regex where
  | eps : Regex
  | ch : Char → Regex
  | dot : Regex
  | dotStar : Regex
  | notSpacePlus : Regex
  | cat : Regex → Regex → Regex
deriving DecidableEq

/-- Literal text as a regex. -/
def lit (s : String) : Regex :=
  s.data.foldr (fun c r => Regex.cat (Regex.ch c) r) Regex.eps

/-- Length of the longest prefix whose characters all satisfy `p`. -/
def countWhile (p : Char → Bool) : List Char → Nat
  | [] => 0
  | c :: t => if p c then countWhile p t + 1 else 0

/-- Suffixes of `s` left after consuming `n, n-1, ..., 1` characters, in that
(greedy-first) order. -/
def greedyRests (s : List Char) : Nat → List (List Char)
  | 0 => []
  | n + 1 => s.drop (n + 1) :: greedyRests s n

/-- All suffixes of `s` remaining after a match of `r` starting at the head of
`s`, in backtracking preference order (greedy repetitions try longest first). -/
def matchList : Regex → List Char → List (List Char)
  | .eps, s => [s]
  | .ch _, [] => []
  | .ch c, x :: t => if x = c then [t] else []
  | .dot, [] => []
  | .dot, x :: t => if x = newlineChar then [] else [t]
  | .notSpacePlus, s => greedyRests s (countWhile (fun c => !(isGoSpace c)) s)
  | .dotStar, s => greedyRests s (countWhile (fun c => !(c == newlineChar)) s) ++ [s]
  | .cat r1 r2, s => (matchList r1 s).flatMap (fun t => matchList r2 t)

/-- The leftmost match of `r` in `s` (as the matched character list), with the
greedy extent at the leftmost matching start position; `none` if `r` matches
nowhere.  This is Go's `FindString` search strategy. -/
def findFirst (r : Regex) : List Char → Option (List Char)
  | [] =>
    match matchList r [] with
    | _ :: _ => some []
    | [] => none
  | x :: t =>
    match matchList r (x :: t) with
    | rest :: _ => some ((x :: t).take ((x :: t).length - rest.length))
    | [] => findFirst r t

/-- Go `regexp.MatchString`: does `r` match anywhere in `s`? -/
def matchB (r : Regex) (s : String) : Bool :=
  (findFirst r s.data).isSome

/-- Go `regexp.FindString`: the leftmost match, or `""` if there is none. -/
def findStringStr (r : Regex) (s : String) : String :=
  ((findFirst r s.data).getD []).asString

/-- Regex `Unknown callable '(.*)'`. -/
def unknownCallablePat : Regex :=
  .cat (lit "Unknown callable ") (.cat (.ch quoteChar) (.cat .dotStar (.ch quoteChar)))

/-- Regex `Variable ([^\s]+) has no value`. -/
def vhnvPat : Regex :=
  .cat (lit "Variable ") (.cat .notSpacePlus (lit " has no value"))

/-- Regex `No such switch with ID ([^\s]+) exists`. -/
def noSwitchPat : Regex :=
  .cat (lit "No such switch with ID ") (.cat .notSpacePlus (lit " exists"))

/-- Regex `No thruster with ID ([^\s]+) exists`. -/
def noThrusterPat : Regex :=
  .cat (lit "No thruster with ID ") (.cat .notSpacePlus (lit " exists"))

/-- Regex `Argument ([^\s]+) must be of type ([^\s]+), got ([^\s]+)`. -/
def argTypePat : Regex :=
  .cat (lit "Argument ")
    (.cat .notSpacePlus
      (.cat (lit " must be of type ")
        (.cat .notSpacePlus (.cat (lit ", got ") .notSpacePlus))))

/-- Regex `All arguments to (.) must be numbers`. -/
def argsNumbersPat : Regex :=
  .cat (lit "All arguments to ") (.cat .dot (lit " must be numbers"))

/-- The entries of the `errPatterns` map, listed in source-text order.  The
map itself is unordered; functions ranging over it take an arbitrary
permutation of this list as the iteration order. -/
def errPatternsList : List (String × Regex) :=
  [("UnknownCallable", unknownCallablePat),
   ("VariableHasNoValue", vhnvPat),
   ("InvalidNumberOfArgs", lit "Invalid number of args"),
   ("CallableMustBeSymbol", lit "Callable name must be a symbol"),
   ("NoSwitchWithID", noSwitchPat),
   ("PropellantGenerator", lit "Propellant cannot be powered with backup generator"),
   ("LightGenerator", lit "Light cannot be powered with backup generator"),
   ("NoThrusterWithID", noThrusterPat),
   ("ArugmentMustBeOfType", argTypePat),
   ("TooManyArguments", lit "Too many arguments"),
   ("ArgsMustBeNumbers", argsNumbersPat)]

/-- datatypes.REPLCommand (datatypes/datatypes.go). -/
structure REPLCommand where
  UID : String
  Timestamp : Int
  Command : String
deriving DecidableEq

/-- datatypes.EditorContent (datatypes/datatypes.go). -/
structure EditorContent where
  UID : String
  Timestamp : Int
  Content : String
deriving DecidableEq

/-- datatypes.ErrorInstance (datatypes/datatypes.go). -/
structure ErrorInstance where
  UID : String
  Timestamp : Int
  Description : String
deriving DecidableEq

/-- The `event` interface with its three implementing types (`errorEvent`,
`replEvent`, `editorEvent`), as a closed sum. -/
inductive event where
  | errorEvent : ErrorInstance → event
  | replEvent : REPLCommand → event
  | editorEvent : EditorContent → event
deriving DecidableEq

/-- `getTimestamp` of each event variant. -/
def event.getTimestamp : event → Int
  | .errorEvent e => e.Timestamp
  | .replEvent r => r.Timestamp
  | .editorEvent e => e.Timestamp

/-- The unsorted event list `newSession` builds before sorting: the user's
error records, then REPL commands, then editor saves, each in the order the
store returned them. -/
def sessionEvents (errs : List ErrorInstance) (cmds : List REPLCommand)
    (saves : List EditorContent) : List event :=
  errs.map event.errorEvent ++ cmds.map event.replEvent ++ saves.map event.editorEvent

/-- The comparison underlying `newSession`'s `sort.Slice` call (less-than on
timestamps, so sortedness means nondecreasing timestamps). -/
def tsLE (a b : event) : Prop := a.getTimestamp ≤ b.getTimestamp

instance : DecidableRel tsLE := fun a b => Int.decLe a.getTimestamp b.getTimestamp

instance : IsTotal event tsLE := ⟨fun a b => Int.le_total a.getTimestamp b.getTimestamp⟩

instance : IsTrans event tsLE := ⟨fun _ _ _ h1 h2 => le_trans h1 h2⟩

/-- Contract of `newSession` (with store fetches abstracted into the three
input lists): the session's event list is a permutation of the concatenated
records that is sorted by timestamp.  `sort.Slice` guarantees nothing more
(in particular it is documented as not stable). -/
def newSessionRel (errs : List ErrorInstance) (cmds : List REPLCommand)
    (saves : List EditorContent) (out : List event) : Prop :=
  out.Perm (sessionEvents errs cmds saves) ∧ out.Sorted tsLE

/-- One sorted permutation of the session events (insertion sort; used to show
the contract `newSessionRel` is satisfiable). -/
def sortTs : List event → List event := List.insertionSort tsLE

/-- The `commandAndError` struct: a command and the (pointer to the) error
that followed it, `none` standing for a nil pointer. -/
structure commandAndError where
  cmd : REPLCommand
  err : Option ErrorInstance
deriving DecidableEq

/-- The loop of `session.commandAndErrors`, carrying the accumulated output
and the `lastCmd` pointer.  Reading `*lastCmd` while `lastCmd == nil` is a
nil-pointer dereference; it is modelled by the result `none` (a panic). -/
def caeAux : List event → List commandAndError → Option REPLCommand →
    Option (List commandAndError × Option REPLCommand)
  | [], out, lastCmd => some (out, lastCmd)
  | .replEvent c :: rest, out, lastCmd =>
    caeAux rest
      (out ++ (match lastCmd with
               | some x => [⟨x, none⟩]
               | none => []))
      (some c)
  | .errorEvent e :: rest, out, lastCmd =>
    (match lastCmd with
     | some x => caeAux rest (out ++ [⟨x, some e⟩]) none
     | none => none)
  | .editorEvent _ :: rest, out, lastCmd => caeAux rest out lastCmd

/-- `session.commandAndErrors`: `none` models the nil-pointer panic. -/
def commandAndErrors (events : List event) : Option (List commandAndError) :=
  (caeAux events [] none).map Prod.fst

/-- The body of the pattern loop in `errorTypeCount`, applied to one error
description with map-iteration order `o`: the name of the first pattern in
`o` that matches, if any (the loop `break`s at the first match). -/
def classifyWith (o : List (String × Regex)) (d : String) : Option String :=
  (o.find? (fun q => matchB q.2 d)).map Prod.fst

/-- One iteration of `errorTypeCount`'s outer loop: bump the bucket of the
first matching pattern (under iteration order `o`), if any.  The Go map
`matchCnt` is modelled as its lookup function with default 0. -/
def histAdd (m : String → Nat) (o : List (String × Regex)) (d : String) : String → Nat :=
  match classifyWith o d with
  | some n => fun k => if k = n then m k + 1 else m k
  | none => m

/-- `errorTypeCount`'s tallying loop over the fetched error instances.  Go
re-randomises map iteration order at each `range`, so each error carries its
own iteration order. -/
def runHist (m : String → Nat) : List (ErrorInstance × List (String × Regex)) → (String → Nat)
  | [] => m
  | (e, o) :: rest => runHist (histAdd m o e.Description) rest

/-- The bucket names of the histogram. -/
def histNames : List String := errPatternsList.map Prod.fst

/-- Sum of all histogram buckets. -/
def bucketTotal (m : String → Nat) : Nat := (histNames.map m).sum

/-- Does a description match at least one pattern of `errPatterns`? -/
def matchedAny (d : String) : Bool :=
  errPatternsList.any (fun q => matchB q.2 d)

/-- The variable key `variableHasNoValueCount` extracts from a description:
`errPatterns["VariableHasNoValue"].FindString(description)`. -/
def vhnvVar (d : String) : String := findStringStr vhnvPat d

/-- `instanceCnt[variable]++` on a Go map modelled as an association list:
increment the entry if present, otherwise append it with count 1. -/
def bump : List (String × Nat) → String → List (String × Nat)
  | [], k => [(k, 1)]
  | (k0, c) :: m, k => if k0 = k then (k0, c + 1) :: m else (k0, c) :: bump m k

/-- The tally loop of `variableHasNoValueCount`: skip descriptions whose
`FindString` result is `""`, bump the extracted key otherwise. -/
def vhnvTallyAux : List (String × Nat) → List ErrorInstance → List (String × Nat)
  | m, [] => m
  | m, e :: rest =>
    vhnvTallyAux (if vhnvVar e.Description = "" then m else bump m (vhnvVar e.Description)) rest

/-- The contents of `instanceCnt` after `variableHasNoValueCount`'s tally
loop (keyed association list, keys in first-encounter order). -/
def vhnvTally (errs : List ErrorInstance) : List (String × Nat) :=
  vhnvTallyAux [] errs

/-- The descending-count comparison of `variableHasNoValueCount`'s
`sort.Slice` call (`less` is `count >`, so sortedness means nonincreasing
counts). -/
def countDesc (a b : String × Nat) : Prop := b.2 ≤ a.2

instance : DecidableRel countDesc := fun a b => Nat.decLe b.2 a.2

/-- Contract of `variableHasNoValueCount` (store fetch abstracted into the
input list): the output is some permutation of the tallied entries (the Go
map is iterated in unspecified order) sorted by descending count
(`sort.Slice`, again unstable). -/
def vhnvRel (errs : List ErrorInstance) (out : List (String × Nat)) : Prop :=
  out.Perm (vhnvTally errs) ∧ out.Sorted countDesc

/-- Contract of `getUIDs` (store fetch abstracted into the input list): the
output lists the distinct UIDs of the REPL-command records, in unspecified
order (Go map keys used as a set). -/
def getUIDsRel (cmds : List REPLCommand) (out : List String) : Prop :=
  out.Nodup ∧ (∀ u ∈ out, u ∈ cmds.map REPLCommand.UID) ∧
    (∀ u ∈ cmds.map REPLCommand.UID, u ∈ out)

/-- The per-UID editor-record count of `editorUse`'s datastore `Count` query,
with the store's editor records abstracted into a list. -/
def editorCount (saves : List EditorContent) (u : String) : Nat :=
  (saves.filter (fun s => s.UID = u)).length

/-- `editorUse`: how many of the given UIDs have at least one editor save. -/
def editorUse (saves : List EditorContent) (uids : List String) : Nat :=
  (uids.filter (fun u => 0 < editorCount saves u)).length

instance (errs : List ErrorInstance) (cmds : List REPLCommand)
    (saves : List EditorContent) (out : List event) :
    Decidable (newSessionRel errs cmds saves out) := by
  unfold newSessionRel; infer_instance

instance (errs : List ErrorInstance) (out : List (String × Nat)) :
    Decidable (vhnvRel errs out) := by
  unfold vhnvRel; infer_instance

instance (cmds : List REPLCommand) (out : List String) :
    Decidable (getUIDsRel cmds out) := by
  unfold getUIDsRel; infer_instance

/-- If at most one element of `l` satisfies `p`, any two satisfying members of
`l` are equal. -/
theorem unique_of_countP_le_one {α : Type} (l : List α) (p : α → Bool)
    (h : l.countP p ≤ 1) {a b : α} (ha : a ∈ l) (hb : b ∈ l)
    (hpa : p a = true) (hpb : p b = true) : a = b := by
  have ha2 : a ∈ l.filter p := List.mem_filter.mpr ⟨ha, hpa⟩
  have hb2 : b ∈ l.filter p := List.mem_filter.mpr ⟨hb, hpb⟩
  rw [List.countP_eq_length_filter] at h
  cases hf : l.filter p with
  | nil => rw [hf] at ha2; cases ha2
  | cons x xs =>
    rw [hf] at ha2 hb2 h
    cases xs with
    | nil =>
      rw [List.mem_singleton] at ha2 hb2
      rw [ha2, hb2]
    | cons y ys => simp at h

/-- The classifier finds a match iff some pattern of the table matches,
whatever the iteration order. -/
theorem classify_isSome (o : List (String × Regex)) (d : String)
    (ho : List.Perm o errPatternsList) :
    (classifyWith o d).isSome = matchedAny d := by
  unfold classifyWith matchedAny
  rw [Option.isSome_map']
  by_cases h : ∃ q ∈ errPatternsList, matchB q.2 d = true
  · obtain ⟨q, hq, hm⟩ := h
    have h1 : (o.find? (fun q => matchB q.2 d)).isSome := by
      rw [List.find?_isSome]
      exact ⟨q, ho.mem_iff.mpr hq, hm⟩
    have h2 : errPatternsList.any (fun q => matchB q.2 d) = true :=
      List.any_eq_true.mpr ⟨q, hq, hm⟩
    rw [h1, h2]
  · have h1 : o.find? (fun q => matchB q.2 d) = none := by
      rw [List.find?_eq_none]
      intro q hq hc
      exact h ⟨q, ho.mem_iff.mp hq, hc⟩
    have h2 : errPatternsList.any (fun q => matchB q.2 d) = false := by
      rw [Bool.eq_false_iff]
      intro hc
      obtain ⟨q, hq, hm⟩ := List.any_eq_true.mp hc
      exact h ⟨q, hq, hm⟩
    rw [h1, h2]
    rfl

/-- Characterisation of a successful classification: the result names a table
entry of the iteration order that matches the description. -/
theorem classify_eq_some (o : List (String × Regex)) (d : String) (n : String)
    (h : classifyWith o d = some n) :
    ∃ q, q ∈ o ∧ q.1 = n ∧ matchB q.2 d = true := by
  unfold classifyWith at h
  cases hf : o.find? (fun q => matchB q.2 d) with
  | none => rw [hf] at h; cases h
  | some q =>
    rw [hf] at h
    refine ⟨q, List.mem_of_find?_eq_some hf, by simpa using h, ?_⟩
    have := List.find?_some hf
    simpa using this

/-- Classification fails exactly when no pattern in the iteration order
matches the description. -/
theorem classify_eq_none (o : List (String × Regex)) (d : String) :
    classifyWith o d = none ↔ ∀ q ∈ o, matchB q.2 d = false := by
  unfold classifyWith
  rw [Option.map_eq_none', List.find?_eq_none]
  constructor
  · intro h q hq
    have := h q hq
    simpa using this
  · intro h q hq
    simp [h q hq]

/-- Incrementing the bucket of name `n` adds `count n names` to the sum of the
buckets listed in `names`. -/
theorem sum_map_bump (names : List String) (m : String → Nat) (n : String) :
    (names.map (fun k => if k = n then m k + 1 else m k)).sum
      = (names.map m).sum + names.count n := by
  induction names with
  | nil => simp
  | cons x xs ih =>
    simp only [List.map_cons, List.sum_cons, ih, List.count_cons]
    by_cases hx : x = n
    · simp [hx]
      omega
    · simp [hx, Ne.symm hx]
      omega

/-- One `errorTypeCount` loop iteration adds 1 to the bucket total when the
description matches some pattern, 0 otherwise. -/
theorem bucketTotal_histAdd (m : String → Nat) (o : List (String × Regex)) (d : String)
    (ho : List.Perm o errPatternsList) :
    bucketTotal (histAdd m o d) = bucketTotal m + (if matchedAny d then 1 else 0) := by
  unfold histAdd
  cases hc : classifyWith o d with
  | none =>
    have : matchedAny d = false := by
      have := classify_isSome o d ho
      rw [hc] at this
      simpa using this.symm
    simp [this]
  | some n =>
    have hsome : matchedAny d = true := by
      have := classify_isSome o d ho
      rw [hc] at this
      simpa using this.symm
    obtain ⟨q, hqo, hqn, hqm⟩ := classify_eq_some o d n hc
    have hmem : n ∈ histNames := by
      unfold histNames
      exact List.mem_map.mpr ⟨q, ho.mem_iff.mp hqo, hqn⟩
    have hnd : histNames.Nodup := by decide
    unfold bucketTotal
    rw [sum_map_bump, List.count_eq_one_of_mem hnd hmem, hsome]
    simp

/-- Running the tally loop adds one to the total per matched description. -/
theorem bucketTotal_runHist (ps : List (ErrorInstance × List (String × Regex)))
    (h : ∀ p ∈ ps, List.Perm p.2 errPatternsList) (m : String → Nat) :
    bucketTotal (runHist m ps)
      = bucketTotal m + (ps.filter (fun p => matchedAny p.1.Description)).length := by
  induction ps generalizing m with
  | nil => simp [runHist]
  | cons p rest ih =>
    obtain ⟨e, o⟩ := p
    have hrest : ∀ q ∈ rest, List.Perm q.2 errPatternsList := fun q hq =>
      h q (List.mem_cons_of_mem _ hq)
    have hp : List.Perm o errPatternsList := h (e, o) (List.mem_cons_self _ _)
    simp only [runHist]
    rw [ih hrest, bucketTotal_histAdd m o e.Description hp, List.filter_cons]
    by_cases hm : matchedAny e.Description
    · simp [hm]
      omega
    · simp only [Bool.not_eq_true] at hm
      simp [hm]

/-- A possible iteration order of the `errPatterns` map that tests
`TooManyArguments` first. -/
def orderTooManyFirst : List (String × Regex) :=
  ("TooManyArguments", lit "Too many arguments") ::
    errPatternsList.erase ("TooManyArguments", lit "Too many arguments")

/-- `orderTooManyFirst` is a permutation of the pattern table. -/
theorem orderTooManyFirst_perm : List.Perm orderTooManyFirst errPatternsList := by
  unfold orderTooManyFirst
  exact (List.perm_cons_erase
    (show ("TooManyArguments", lit "Too many arguments") ∈ errPatternsList by decide)).symm

/-- Error fixture: a description matching only the `TooManyArguments` pattern. -/
def erTooMany : ErrorInstance :=
  { UID := "u", Timestamp := 4, Description := "Too many arguments" }

/-- Error fixture: a description matching no pattern at all. -/
def erNoMatch : ErrorInstance :=
  { UID := "v", Timestamp := 5, Description := "a completely unrelated failure" }

/-- C5: the error-type histogram counts only matched errors: a description
matching no pattern lands in no bucket, each matched error is classified into
exactly one bucket, and the sum of all buckets equals the number of errors
whose description matches at least one pattern — for every choice of map
iteration orders. -/
theorem errorTypeCount_counts_matched_only
    (ps : List (ErrorInstance × List (String × Regex)))
    (h : ∀ p ∈ ps, List.Perm p.2 errPatternsList) :
    bucketTotal (runHist (fun _ => 0) ps)
        = (ps.filter (fun p => matchedAny p.1.Description)).length
    ∧ (∀ p ∈ ps, (classifyWith p.2 p.1.Description).isSome = matchedAny p.1.Description)
    ∧ (∀ p ∈ ps, matchedAny p.1.Description = false →
        classifyWith p.2 p.1.Description = none) := by
  refine ⟨?_, fun p hp => classify_isSome _ _ (h p hp), fun p hp hm => ?_⟩
  · rw [bucketTotal_runHist ps h]
    simp [bucketTotal, histNames, errPatternsList]
  · have := classify_isSome p.2 p.1.Description (h p hp)
    rw [hm] at this
    cases hc : classifyWith p.2 p.1.Description with
    | none => rfl
    | some n => rw [hc] at this; cases this

/-- C5 witness: a matched and an unmatched error, each processed under its own
iteration order, give bucket total 1. -/
theorem errorTypeCount_counts_matched_only_witness :
    (∀ p ∈ ([(erTooMany, orderTooManyFirst), (erNoMatch, errPatternsList)] :
        List (ErrorInstance × List (String × Regex))), List.Perm p.2 errPatternsList)
    ∧ bucketTotal (runHist (fun _ => 0)
          [(erTooMany, orderTooManyFirst), (erNoMatch, errPatternsList)])
        = ([(erTooMany, orderTooManyFirst), (erNoMatch, errPatternsList)].filter
            (fun p => matchedAny p.1.Description)).length := by
  have hp : ∀ p ∈ ([(erTooMany, orderTooManyFirst), (erNoMatch, errPatternsList)] :
      List (ErrorInstance × List (String × Regex))), List.Perm p.2 errPatternsList := by
    intro p hp
    simp only [List.mem_cons, List.not_mem_nil, or_false] at hp
    rcases hp with rfl | rfl
    · exact orderTooManyFirst_perm
    · exact List.Perm.refl _
  exact ⟨hp, (errorTypeCount_counts_matched_only _ hp).1⟩

/-- C1 (amended): classification is first-match-wins over the map iteration
order; for a description matching at most one pattern the assigned label does
not depend on the order, so it agrees between any two runs. -/
theorem classify_deterministic_on_unique_match
    (o1 o2 : List (String × Regex)) (d : String)
    (h1 : List.Perm o1 errPatternsList) (h2 : List.Perm o2 errPatternsList)
    (hu : errPatternsList.countP (fun q => matchB q.2 d) ≤ 1) :
    classifyWith o1 d = classifyWith o2 d := by
  cases hc1 : classifyWith o1 d with
  | none =>
    have hno : ∀ q ∈ o1, matchB q.2 d = false := (classify_eq_none o1 d).mp hc1
    have : ∀ q ∈ o2, matchB q.2 d = false := fun q hq =>
      hno q (h1.mem_iff.mpr (h2.mem_iff.mp hq))
    exact ((classify_eq_none o2 d).mpr this).symm
  | some n =>
    obtain ⟨q1, hq1o, hq1n, hq1m⟩ := classify_eq_some o1 d n hc1
    cases hc2 : classifyWith o2 d with
    | none =>
      have hno := (classify_eq_none o2 d).mp hc2
      have : matchB q1.2 d = false := hno q1 (h2.mem_iff.mpr (h1.mem_iff.mp hq1o))
      rw [hq1m] at this
      cases this
    | some n2 =>
      obtain ⟨q2, hq2o, hq2n, hq2m⟩ := classify_eq_some o2 d n2 hc2
      have heq : q1 = q2 :=
        unique_of_countP_le_one errPatternsList _ hu
          (h1.mem_iff.mp hq1o) (h2.mem_iff.mp hq2o) hq1m hq2m
      rw [← hq1n, ← hq2n, heq]

/-- C1 witness: two different iteration orders classify a single-match
description identically. -/
theorem classify_deterministic_on_unique_match_witness :
    List.Perm orderTooManyFirst errPatternsList
    ∧ List.Perm errPatternsList errPatternsList
    ∧ errPatternsList.countP (fun q => matchB q.2 "Too many arguments") ≤ 1
    ∧ classifyWith orderTooManyFirst "Too many arguments"
        = classifyWith errPatternsList "Too many arguments" :=
  ⟨orderTooManyFirst_perm, List.Perm.refl _, by decide,
    classify_deterministic_on_unique_match orderTooManyFirst errPatternsList
      "Too many arguments" orderTooManyFirst_perm (List.Perm.refl _) (by decide)⟩

/-- C1 counterexample: the pattern table is a Go map, whose iteration order is
not fixed; under two valid iteration orders, a description matching both
`InvalidNumberOfArgs` and `TooManyArguments` is assigned different labels, so
classification of multi-match descriptions is not deterministic across runs. -/
theorem classify_order_dependent_cex :
    List.Perm orderTooManyFirst errPatternsList
    ∧ classifyWith errPatternsList "Invalid number of args: Too many arguments"
        ≠ classifyWith orderTooManyFirst "Invalid number of args: Too many arguments"
    ∧ classifyWith errPatternsList "Invalid number of args: Too many arguments"
        = some "InvalidNumberOfArgs"
    ∧ classifyWith orderTooManyFirst "Invalid number of args: Too many arguments"
        = some "TooManyArguments" :=
  ⟨orderTooManyFirst_perm, by decide, by decide, by decide⟩

def cm1 : REPLCommand := { UID := "u", Timestamp := 1, Command := "c1" }
def cm2 : REPLCommand := { UID := "u", Timestamp := 3, Command := "c2" }
def er1 : ErrorInstance := { UID := "u", Timestamp := 2, Description := "boom" }

/-- C4: for the session of command C1 at t=1, error E1 at t=2 and command C2
at t=3 (a valid `newSession` output for those records), `commandAndErrors`
returns exactly the single pair (C1, E1); in general a trailing command with
no following error is never emitted (appending a final command only flushes
the previously pending command), and editor-save events leave the loop state
unchanged. -/
theorem commandAndErrors_first_match_pairs :
    (newSessionRel [er1] [cm1, cm2] []
        [event.replEvent cm1, event.errorEvent er1, event.replEvent cm2]
      ∧ commandAndErrors [event.replEvent cm1, event.errorEvent er1, event.replEvent cm2]
          = some [⟨cm1, some er1⟩])
    ∧ (∀ (evs : List event) (out : List commandAndError) (lc : Option REPLCommand)
        (c : REPLCommand),
        caeAux (evs ++ [event.replEvent c]) out lc
          = (caeAux evs out lc).map
              (fun st => (st.1 ++ (match st.2 with
                                   | some x => [⟨x, none⟩]
                                   | none => []), some c)))
    ∧ (∀ (x : EditorContent) (evs : List event) (out : List commandAndError)
        (lc : Option REPLCommand),
        caeAux (event.editorEvent x :: evs) out lc = caeAux evs out lc) := by
  refine ⟨⟨by decide, by decide⟩, ?_, fun x evs out lc => rfl⟩
  intro evs
  induction evs with
  | nil =>
    intro out lc c
    cases lc <;> rfl
  | cons e rest ih =>
    intro out lc c
    cases e with
    | replEvent c0 =>
      simp only [List.cons_append, caeAux]
      exact ih _ _ _
    | errorEvent e0 =>
      cases lc with
      | none => rfl
      | some x =>
        simp only [List.cons_append, caeAux]
        exact ih _ _ _
    | editorEvent e0 =>
      simp only [List.cons_append, caeAux]
      exact ih _ _ _

/-- C2 (code bug): when an `errorEvent` is processed while no command is
pending — the error is the first event, or only editor saves precede it —
`commandAndErrors` dereferences the nil `lastCmd` pointer and panics
(modelled as `none`) instead of emitting a pair with an absent command. -/
theorem commandAndErrors_crashes_on_unpaired_error :
    commandAndErrors [event.errorEvent er1] = none
    ∧ commandAndErrors [event.editorEvent { UID := "u", Timestamp := 0, Content := "x" },
        event.errorEvent er1] = none := ⟨rfl, rfl⟩

/-- C10: for a user with zero records of every kind, `newSession` returns the
empty session (its only admissible output is the empty event list, with no
error), and `commandAndErrors` of the empty session is the empty pair
sequence (no panic). -/
theorem empty_records_empty_session (out : List event)
    (h : newSessionRel [] [] [] out) :
    out = [] ∧ commandAndErrors [] = some [] := by
  refine ⟨?_, rfl⟩
  have h1 : List.Perm out [] := by
    have := h.1
    simpa [sessionEvents] using this
  exact h1.eq_nil

/-- C10 witness: the empty event list satisfies the `newSession` contract for
empty inputs. -/
theorem empty_records_empty_session_witness :
    newSessionRel [] [] [] [] ∧ ([] : List event) = [] ∧ commandAndErrors [] = some [] :=
  ⟨by decide, (empty_records_empty_session [] (by decide)).1,
    (empty_records_empty_session [] (by decide)).2⟩

/-- Two sorted permutations of each other with pairwise-distinct timestamps
are equal. -/
theorem sorted_perm_eq_of_nodup_ts (l1 : List event) :
    ∀ l2 : List event, List.Perm l1 l2 → l1.Sorted tsLE → l2.Sorted tsLE →
      (l1.map event.getTimestamp).Nodup → l1 = l2 := by
  induction l1 with
  | nil =>
    intro l2 hp _ _ _
    exact (hp.symm.eq_nil).symm
  | cons a t1 ih =>
    intro l2 hp hs1 hs2 hnd
    cases l2 with
    | nil => cases hp.eq_nil
    | cons b t2 =>
      have hab : a = b := by
        by_contra hne
        have ha2 : a ∈ b :: t2 := hp.subset (List.mem_cons_self _ _)
        have hat2 : a ∈ t2 := by
          rcases List.mem_cons.mp ha2 with h | h
          · exact absurd h hne
          · exact h
        have hba : tsLE b a := List.rel_of_sorted_cons hs2 a hat2
        have hb1 : b ∈ a :: t1 := hp.symm.subset (List.mem_cons_self _ _)
        have hbt1 : b ∈ t1 := by
          rcases List.mem_cons.mp hb1 with h | h
          · exact absurd h.symm hne
          · exact h
        have hab2 : tsLE a b := List.rel_of_sorted_cons hs1 b hbt1
        have hts : a.getTimestamp = b.getTimestamp := le_antisymm hab2 hba
        have : a.getTimestamp ∈ t1.map event.getTimestamp :=
          List.mem_map.mpr ⟨b, hbt1, hts.symm⟩
        rw [List.map_cons, List.nodup_cons] at hnd
        exact hnd.1 this
      subst hab
      have hp2 : List.Perm t1 t2 := hp.cons_inv
      have h12 : t1 = t2 :=
        ih t2 hp2 hs1.of_cons hs2.of_cons
          (by rw [List.map_cons, List.nodup_cons] at hnd; exact hnd.2)
      rw [h12]

/-- C3 (amended): `newSession` returns the concatenation of the user's error,
command and editor-save records sorted ascending by timestamp — some sorted
permutation, satisfiable e.g. by insertion sort; when all timestamps are
distinct this output is unique, but for equal timestamps `sort.Slice` does
not guarantee stability, so the fetch-order tie-break of the original claim
is not guaranteed. -/
theorem newSession_sorted_perm (errs : List ErrorInstance) (cmds : List REPLCommand)
    (saves : List EditorContent) (out out2 : List event)
    (h : newSessionRel errs cmds saves out) (h2 : newSessionRel errs cmds saves out2)
    (hd : ((sessionEvents errs cmds saves).map event.getTimestamp).Nodup) :
    newSessionRel errs cmds saves (sortTs (sessionEvents errs cmds saves))
    ∧ out = out2 := by
  constructor
  · exact ⟨List.perm_insertionSort tsLE _, List.sorted_insertionSort tsLE _⟩
  · have hperm : List.Perm out out2 := h.1.trans h2.1.symm
    have hnd : (out.map event.getTimestamp).Nodup :=
      ((h.1.map event.getTimestamp).nodup_iff).mpr hd
    exact sorted_perm_eq_of_nodup_ts out out2 hperm h.2 h2.2 hnd

def e5 : ErrorInstance := { UID := "u", Timestamp := 5, Description := "boom" }
def c5 : REPLCommand := { UID := "u", Timestamp := 5, Command := "go" }

/-- C3 counterexample: for an error and a command with equal timestamps, the
`newSession` contract admits the output that reverses the fetch order
(errors are fetched before commands) as well as the fetch-order output, so
the code does not guarantee the stable tie-break the claim states. -/
theorem newSession_not_stable_cex :
    newSessionRel [e5] [c5] [] [event.replEvent c5, event.errorEvent e5]
    ∧ newSessionRel [e5] [c5] [] [event.errorEvent e5, event.replEvent c5]
    ∧ ([event.replEvent c5, event.errorEvent e5] : List event)
        ≠ [event.errorEvent e5, event.replEvent c5] := by
  exact ⟨by decide, by decide, by decide⟩

/-- C3 witness: concrete instance of the amended claim with distinct
timestamps. -/
theorem newSession_sorted_perm_witness :
    newSessionRel [er1] [cm1] [] [event.replEvent cm1, event.errorEvent er1]
    ∧ (((sessionEvents [er1] [cm1] []).map event.getTimestamp).Nodup)
    ∧ newSessionRel [er1] [cm1] [] (sortTs (sessionEvents [er1] [cm1] []))
    ∧ ([event.replEvent cm1, event.errorEvent er1] : List event)
        = [event.replEvent cm1, event.errorEvent er1] :=
  ⟨by decide, by decide,
    (newSession_sorted_perm [er1] [cm1] [] [event.replEvent cm1, event.errorEvent er1]
      [event.replEvent cm1, event.errorEvent er1] (by decide) (by decide) (by decide)).1,
    (newSession_sorted_perm [er1] [cm1] [] [event.replEvent cm1, event.errorEvent er1]
      [event.replEvent cm1, event.errorEvent er1] (by decide) (by decide) (by decide)).2⟩

/-- Keys of the modelled `instanceCnt` map. -/
def keysOf (m : List (String × Nat)) : List String := m.map Prod.fst

/-- Lookup in the modelled `instanceCnt` map, default 0 (Go map semantics). -/
def assocGet : List (String × Nat) → String → Nat
  | [], _ => 0
  | (k0, c) :: m, k => if k0 = k then c else assocGet m k

theorem assocGet_bump_self (m : List (String × Nat)) (k : String) :
    assocGet (bump m k) k = assocGet m k + 1 := by
  induction m with
  | nil => simp [bump, assocGet]
  | cons p m ih =>
    obtain ⟨k0, c⟩ := p
    by_cases h : k0 = k
    · simp [bump, assocGet, h]
    · simp [bump, assocGet, h, ih]

theorem assocGet_bump_ne (m : List (String × Nat)) (k k2 : String) (h : k2 ≠ k) :
    assocGet (bump m k) k2 = assocGet m k2 := by
  induction m with
  | nil => simp [bump, assocGet, Ne.symm h]
  | cons p m ih =>
    obtain ⟨k0, c⟩ := p
    by_cases h0 : k0 = k
    · subst h0
      simp [bump, assocGet, Ne.symm h]
    · by_cases h2 : k0 = k2
      · subst h2
        simp [bump, assocGet, h0]
      · simp [bump, assocGet, h0, h2, ih]

theorem mem_bump (m : List (String × Nat)) (k : String) (p : String × Nat)
    (h : p ∈ bump m k) : p.1 = k ∨ p ∈ m := by
  induction m with
  | nil =>
    simp [bump] at h
    left
    rw [h]
  | cons q m ih =>
    obtain ⟨k0, c⟩ := q
    by_cases h0 : k0 = k
    · subst h0
      simp only [bump, if_pos rfl] at h
      rcases List.mem_cons.mp h with h | h
      · left; rw [h]
      · right; exact List.mem_cons_of_mem _ h
    · simp only [bump, if_neg h0] at h
      rcases List.mem_cons.mp h with h | h
      · right; rw [h]; exact List.mem_cons_self _ _
      · rcases ih h with h | h
        · left; exact h
        · right; exact List.mem_cons_of_mem _ h

theorem keysOf_bump_nodup (m : List (String × Nat)) (k : String)
    (h : (keysOf m).Nodup) : (keysOf (bump m k)).Nodup := by
  induction m with
  | nil => simp [bump, keysOf]
  | cons q m ih =>
    obtain ⟨k0, c⟩ := q
    rw [keysOf, List.map_cons, List.nodup_cons] at h
    by_cases h0 : k0 = k
    · simp only [bump, if_pos h0, keysOf, List.map_cons, List.nodup_cons]
      exact ⟨h.1, h.2⟩
    · simp only [bump, if_neg h0, keysOf, List.map_cons, List.nodup_cons]
      refine ⟨?_, ih h.2⟩
      intro hc
      obtain ⟨p, hp, hpk⟩ := List.mem_map.mp hc
      rcases mem_bump m k p hp with h1 | h1
      · exact h0 (hpk ▸ h1 ▸ rfl)
      · exact h.1 (List.mem_map.mpr ⟨p, h1, hpk⟩)

theorem assocGet_of_mem (m : List (String × Nat)) (p : String × Nat)
    (hp : p ∈ m) (hnd : (keysOf m).Nodup) : assocGet m p.1 = p.2 := by
  induction m with
  | nil => cases hp
  | cons q m ih =>
    obtain ⟨k0, c⟩ := q
    rw [keysOf, List.map_cons, List.nodup_cons] at hnd
    rcases List.mem_cons.mp hp with h | h
    · rw [h]
      simp [assocGet]
    · have hne : k0 ≠ p.1 := by
        intro hc
        exact hnd.1 (hc ▸ List.mem_map.mpr ⟨p, h, rfl⟩)
      simp only [assocGet, if_neg hne]
      exact ih h hnd.2

theorem tallyAux_get (errs : List ErrorInstance) :
    ∀ (m : List (String × Nat)) (k : String), k ≠ "" →
      assocGet (vhnvTallyAux m errs) k
        = assocGet m k + errs.countP (fun e => vhnvVar e.Description == k) := by
  induction errs with
  | nil => intro m k _; simp [vhnvTallyAux]
  | cons e rest ih =>
    intro m k hk
    simp only [vhnvTallyAux]
    by_cases hv : vhnvVar e.Description = ""
    · rw [if_pos hv, ih m k hk, List.countP_cons]
      have : (vhnvVar e.Description == k) = false := by
        rw [beq_eq_false_iff_ne, hv]
        exact Ne.symm hk
      rw [this]
      simp
    · rw [if_neg hv, List.countP_cons]
      by_cases hvk : vhnvVar e.Description = k
      · rw [ih (bump m (vhnvVar e.Description)) k hk, hvk, assocGet_bump_self]
        have : ((k : String) == k) = true := beq_self_eq_true k
        rw [hvk] at *
        simp [this]
        omega
      · rw [ih (bump m (vhnvVar e.Description)) k hk,
          assocGet_bump_ne m (vhnvVar e.Description) k (Ne.symm hvk)]
        have : (vhnvVar e.Description == k) = false := beq_eq_false_iff_ne.mpr hvk
        simp [this]

theorem tallyAux_nodup (errs : List ErrorInstance) :
    ∀ m : List (String × Nat), (keysOf m).Nodup →
      (keysOf (vhnvTallyAux m errs)).Nodup := by
  induction errs with
  | nil => intro m h; simpa [vhnvTallyAux] using h
  | cons e rest ih =>
    intro m h
    simp only [vhnvTallyAux]
    by_cases hv : vhnvVar e.Description = ""
    · rw [if_pos hv]; exact ih m h
    · rw [if_neg hv]; exact ih _ (keysOf_bump_nodup m _ h)

theorem tallyAux_mem_src (errs : List ErrorInstance) :
    ∀ (m : List (String × Nat)) (p : String × Nat), p ∈ vhnvTallyAux m errs →
      p ∈ m ∨ (p.1 ≠ "" ∧ ∃ e ∈ errs, vhnvVar e.Description = p.1) := by
  induction errs with
  | nil => intro m p hp; left; simpa [vhnvTallyAux] using hp
  | cons e rest ih =>
    intro m p hp
    simp only [vhnvTallyAux] at hp
    by_cases hv : vhnvVar e.Description = ""
    · rw [if_pos hv] at hp
      rcases ih m p hp with h | ⟨hne, e2, he2, hv2⟩
      · left; exact h
      · right; exact ⟨hne, e2, List.mem_cons_of_mem _ he2, hv2⟩
    · rw [if_neg hv] at hp
      rcases ih _ p hp with h | ⟨hne, e2, he2, hv2⟩
      · rcases mem_bump m _ p h with h1 | h1
        · right
          refine ⟨?_, e, List.mem_cons_self _ _, h1.symm⟩
          rw [← h1] at hv
          exact hv
        · left; exact h1
      · right; exact ⟨hne, e2, List.mem_cons_of_mem _ he2, hv2⟩

/-- C6 (amended): every output admitted by `variableHasNoValueCount` is
sorted in descending order of count, and each entry is a nonempty matched
substring with its exact number of occurrences among the error records;
the order of entries with equal counts is left open by the code (map
iteration plus unstable sort), so it is not deterministic. -/
theorem vhnv_ranking_sorted_desc (errs : List ErrorInstance) (out : List (String × Nat))
    (h : vhnvRel errs out) :
    out.Sorted countDesc
    ∧ ∀ p ∈ out, p.1 ≠ ""
        ∧ p.2 = errs.countP (fun e => vhnvVar e.Description == p.1)
        ∧ 0 < p.2 := by
  refine ⟨h.2, fun p hp => ?_⟩
  have hpm : p ∈ vhnvTally errs := h.1.subset hp
  have hsrc := tallyAux_mem_src errs [] p hpm
  simp only [List.not_mem_nil, false_or] at hsrc
  obtain ⟨hne, e, he, hv⟩ := hsrc
  have hnd : (keysOf (vhnvTally errs)).Nodup :=
    tallyAux_nodup errs [] (by simp [keysOf])
  have hget : assocGet (vhnvTally errs) p.1 = p.2 := assocGet_of_mem _ p hpm hnd
  have hcnt : assocGet (vhnvTally errs) p.1
      = assocGet [] p.1 + errs.countP (fun e => vhnvVar e.Description == p.1) :=
    tallyAux_get errs [] p.1 hne
  simp only [assocGet, Nat.zero_add] at hcnt
  refine ⟨hne, by rw [← hget, hcnt], ?_⟩
  rw [← hget, hcnt]
  rw [List.countP_pos_iff]
  exact ⟨e, he, by simp [hv]⟩

def errA : ErrorInstance :=
  { UID := "u", Timestamp := 1, Description := "Variable a has no value" }

def errB : ErrorInstance :=
  { UID := "u", Timestamp := 2, Description := "Variable b has no value" }

/-- C6 witness: a concrete output of `variableHasNoValueCount` with counts 2
and 1, checked against the amended claim. -/
theorem vhnv_ranking_sorted_desc_witness :
    vhnvRel [errA, errA, errB]
      [("Variable a has no value", 2), ("Variable b has no value", 1)]
    ∧ (∀ p ∈ ([("Variable a has no value", 2), ("Variable b has no value", 1)] :
        List (String × Nat)), p.1 ≠ ""
        ∧ p.2 = [errA, errA, errB].countP (fun e => vhnvVar e.Description == p.1)
        ∧ 0 < p.2) :=
  ⟨by decide,
    (vhnv_ranking_sorted_desc [errA, errA, errB]
      [("Variable a has no value", 2), ("Variable b has no value", 1)] (by decide)).2⟩

/-- C6 counterexample: two variables with equal counts: the code's contract
admits both orders of the tied entries on identical input, so the output
order is not reproducible across runs. -/
theorem vhnv_tie_order_not_deterministic_cex :
    vhnvRel [errA, errB]
      [("Variable a has no value", 1), ("Variable b has no value", 1)]
    ∧ vhnvRel [errA, errB]
      [("Variable b has no value", 1), ("Variable a has no value", 1)]
    ∧ ([("Variable a has no value", 1), ("Variable b has no value", 1)] :
        List (String × Nat))
        ≠ [("Variable b has no value", 1), ("Variable a has no value", 1)] :=
  ⟨by decide, by decide, by decide⟩

theorem greedyRests_mem_le (s : List Char) :
    ∀ (n : Nat) (t : List Char), t ∈ greedyRests s n → t.length ≤ s.length := by
  intro n
  induction n with
  | zero => intro t h; cases h
  | succ k ih =>
    intro t h
    rw [greedyRests] at h
    rcases List.mem_cons.mp h with h | h
    · rw [h, List.length_drop]
      omega
    · exact ih t h

theorem matchList_suffix_le (r : Regex) :
    ∀ (s t : List Char), t ∈ matchList r s → t.length ≤ s.length := by
  induction r with
  | eps =>
    intro s t h
    rw [matchList, List.mem_singleton] at h
    rw [h]
  | ch c =>
    intro s t h
    cases s with
    | nil => cases h
    | cons x s0 =>
      rw [matchList] at h
      by_cases hx : x = c
      · rw [if_pos hx, List.mem_singleton] at h
        rw [h]
        simp
      · rw [if_neg hx] at h
        cases h
  | dot =>
    intro s t h
    cases s with
    | nil => cases h
    | cons x s0 =>
      rw [matchList] at h
      by_cases hx : x = newlineChar
      · rw [if_pos hx] at h
        cases h
      · rw [if_neg hx, List.mem_singleton] at h
        rw [h]
        simp
  | dotStar =>
    intro s t h
    rw [matchList, List.mem_append] at h
    rcases h with h | h
    · exact greedyRests_mem_le s _ t h
    · rw [List.mem_singleton] at h
      rw [h]
  | notSpacePlus =>
    intro s t h
    rw [matchList] at h
    exact greedyRests_mem_le s _ t h
  | cat r1 r2 ih1 ih2 =>
    intro s t h
    rw [matchList, List.mem_flatMap] at h
    obtain ⟨u, hu, htu⟩ := h
    exact le_trans (ih2 u t htu) (ih1 s u hu)

theorem matchList_cat_ex (r1 r2 : Regex) (s t : List Char)
    (h : t ∈ matchList (.cat r1 r2) s) :
    ∃ u, u ∈ matchList r1 s ∧ t ∈ matchList r2 u := by
  rw [matchList, List.mem_flatMap] at h
  exact h

theorem matchList_vhnv_lt (s t : List Char) (h : t ∈ matchList vhnvPat s) :
    t.length < s.length := by
  obtain ⟨u, hu, htu⟩ := matchList_cat_ex _ _ _ _ h
  have hv : lit "Variable " = Regex.cat (.ch (Char.ofNat 86)) (lit "ariable ") := by decide
  rw [hv] at hu
  obtain ⟨v, hv2, huv⟩ := matchList_cat_ex _ _ _ _ hu
  cases s with
  | nil => cases hv2
  | cons x s0 =>
    rw [matchList] at hv2
    by_cases hx : x = Char.ofNat 86
    · rw [if_pos hx, List.mem_singleton] at hv2
      subst hv2
      have h1 : u.length ≤ v.length := matchList_suffix_le _ v u huv
      have h2 : t.length ≤ u.length := matchList_suffix_le _ u t htu
      simp only [List.length_cons]
      omega
    · rw [if_neg hx] at hv2
      cases hv2

theorem findFirst_vhnv_ne_nil :
    ∀ (s m : List Char), findFirst vhnvPat s = some m → m ≠ [] := by
  intro s
  induction s with
  | nil =>
    intro m hm
    cases hml : matchList vhnvPat [] with
    | nil => rw [findFirst, hml] at hm; cases hm
    | cons t ts =>
      have := matchList_vhnv_lt [] t (by rw [hml]; exact List.mem_cons_self _ _)
      simp at this
  | cons x s0 ih =>
    intro m hm
    cases hml : matchList vhnvPat (x :: s0) with
    | nil =>
      rw [findFirst, hml] at hm
      exact ih m hm
    | cons r rs =>
      rw [findFirst, hml] at hm
      have hlt : r.length < (x :: s0).length :=
        matchList_vhnv_lt _ r (by rw [hml]; exact List.mem_cons_self _ _)
      have hm2 : m = (x :: s0).take ((x :: s0).length - r.length) := by
        injection hm with h
        exact h.symm
      intro hc
      rw [hc] at hm2
      cases hk2 : (x :: s0).length - r.length with
      | zero => simp only [List.length_cons] at hk2 hlt; omega
      | succ n =>
        rw [hk2] at hm2
        simp [List.take] at hm2

theorem vhnvVar_empty_iff (d : String) :
    (vhnvVar d = "") ↔ (matchB vhnvPat d = false) := by
  unfold vhnvVar findStringStr matchB
  cases hf : findFirst vhnvPat d.data with
  | none =>
    have he : ([] : List Char).asString = "" := rfl
    simp [hf, he]
  | some m =>
    simp only [hf, Option.getD_some, Option.isSome_some]
    constructor
    · intro h
      exfalso
      apply findFirst_vhnv_ne_nil d.data m hf
      have := congrArg String.data h
      simpa using this
    · intro h
      cases h

/-- A possible iteration order of the `errPatterns` map that tests
`InvalidNumberOfArgs` first. -/
def orderInvalidFirst : List (String × Regex) :=
  ("InvalidNumberOfArgs", lit "Invalid number of args") ::
    errPatternsList.erase ("InvalidNumberOfArgs", lit "Invalid number of args")

/-- C8: `variableHasNoValueCount` tallies an error iff its description
matches the `Variable <name> has no value` pattern (`FindString` returns a
nonempty string exactly on a match), the tally key is the full matched
substring including the literal prefix — `"Variable foo has no value"`, not
`"foo"` — and the tally is independent of histogram classification: a
description classified as `InvalidNumberOfArgs` by the histogram is still
tallied under its matched substring. -/
theorem vhnv_keys_full_match :
    (∀ d : String, (vhnvVar d = "") ↔ (matchB vhnvPat d = false))
    ∧ vhnvVar "Variable foo has no value" = "Variable foo has no value"
    ∧ vhnvVar "Variable foo has no value" ≠ "foo"
    ∧ (∀ (m : List (String × Nat)) (e : ErrorInstance) (rest : List ErrorInstance),
        vhnvTallyAux m (e :: rest)
          = vhnvTallyAux (if vhnvVar e.Description = "" then m
                          else bump m (vhnvVar e.Description)) rest)
    ∧ (List.Perm orderInvalidFirst errPatternsList
        ∧ classifyWith orderInvalidFirst "Variable x has no value: Invalid number of args"
            = some "InvalidNumberOfArgs"
        ∧ vhnvVar "Variable x has no value: Invalid number of args"
            = "Variable x has no value") := by
  refine ⟨vhnvVar_empty_iff, by decide, by decide, fun m e rest => rfl, ?_, by decide, by decide⟩
  unfold orderInvalidFirst
  exact (List.perm_cons_erase
    (show ("InvalidNumberOfArgs", lit "Invalid number of args") ∈ errPatternsList by decide)).symm

/-- C7 (amended): a description matching the
`Argument <name> must be of type <type>, got <type2>` pattern and no other
pattern is classified, under every map iteration order, with the label
`"ArugmentMustBeOfType"` — the source's spelling, not the claim's
`ArgumentMustBeOfType` — and that string is the key incremented in the
error-type histogram. -/
theorem classify_argType (o : List (String × Regex)) (d : String)
    (ho : List.Perm o errPatternsList)
    (hm : matchB argTypePat d = true)
    (hothers : ∀ q ∈ errPatternsList, q.1 ≠ "ArugmentMustBeOfType" → matchB q.2 d = false) :
    classifyWith o d = some "ArugmentMustBeOfType"
    ∧ runHist (fun _ => 0) [({ UID := "u", Timestamp := 0, Description := d }, o)]
        "ArugmentMustBeOfType" = 1 := by
  have hcl : classifyWith o d = some "ArugmentMustBeOfType" := by
    cases hc : classifyWith o d with
    | none =>
      exfalso
      have hno := (classify_eq_none o d).mp hc
      have hmem : ("ArugmentMustBeOfType", argTypePat) ∈ o :=
        ho.mem_iff.mpr (by decide)
      have := hno _ hmem
      rw [hm] at this
      cases this
    | some n =>
      obtain ⟨q, hqo, hqn, hqm⟩ := classify_eq_some o d n hc
      by_cases hq : q.1 = "ArugmentMustBeOfType"
      · rw [← hqn, hq]
      · exfalso
        have := hothers q (ho.mem_iff.mp hqo) hq
        rw [hqm] at this
        cases this
  refine ⟨hcl, ?_⟩
  simp only [runHist, histAdd, hcl]
  simp

/-- C7 witness: a concrete argument-type description classified under the
source-order table. -/
theorem classify_argType_witness :
    List.Perm errPatternsList errPatternsList
    ∧ matchB argTypePat "Argument x must be of type int, got string" = true
    ∧ (∀ q ∈ errPatternsList, q.1 ≠ "ArugmentMustBeOfType" →
        matchB q.2 "Argument x must be of type int, got string" = false)
    ∧ classifyWith errPatternsList "Argument x must be of type int, got string"
        = some "ArugmentMustBeOfType" :=
  ⟨List.Perm.refl _, by decide, by decide,
    (classify_argType errPatternsList "Argument x must be of type int, got string"
      (List.Perm.refl _) (by decide) (by decide)).1⟩

/-- C7 counterexample: the code's label for the argument-type pattern is the
misspelled `"ArugmentMustBeOfType"`; no table entry carries the claim's
label `ArgumentMustBeOfType`. -/
theorem argType_label_misspelled_cex :
    classifyWith errPatternsList "Argument x must be of type int, got string"
        = some "ArugmentMustBeOfType"
    ∧ "ArugmentMustBeOfType" ≠ "ArgumentMustBeOfType"
    ∧ (∀ q ∈ errPatternsList, q.1 ≠ "ArgumentMustBeOfType") :=
  ⟨by decide, by decide, by decide⟩

/-- C9: `getUIDs` returns exactly the set of UIDs appearing in REPL-command
records; a user with no command record (only errors or editor saves) is
absent from the returned set, and therefore contributes neither to the
numerator (the filter runs over the returned UIDs) nor to the denominator
(the length of the returned UID list) of the editor-adoption ratio computed
from `editorUse`. -/
theorem getUIDs_from_commands_only (cmds : List REPLCommand) (saves : List EditorContent)
    (out : List String) (u : String)
    (h : getUIDsRel cmds out) (hu : ∀ c ∈ cmds, c.UID ≠ u) :
    (∀ v, v ∈ out ↔ ∃ c ∈ cmds, c.UID = v)
    ∧ u ∉ out
    ∧ editorUse saves out = editorUse saves (out.filter (fun v => v ≠ u))
    ∧ out.length = (out.filter (fun v => v ≠ u)).length := by
  have hiff : ∀ v, v ∈ out ↔ ∃ c ∈ cmds, c.UID = v := by
    intro v
    constructor
    · intro hv
      obtain ⟨c, hc, hcv⟩ := List.mem_map.mp (h.2.1 v hv)
      exact ⟨c, hc, hcv⟩
    · intro ⟨c, hc, hcv⟩
      exact h.2.2 v (List.mem_map.mpr ⟨c, hc, hcv⟩)
  have hnm : u ∉ out := by
    intro hin
    obtain ⟨c, hc, hcu⟩ := (hiff u).mp hin
    exact hu c hc hcu
  have hfe : out.filter (fun v => v ≠ u) = out := by
    rw [List.filter_eq_self]
    intro v hv
    simp only [ne_eq, decide_eq_true_eq]
    intro hc
    rw [hc] at hv
    exact hnm hv
  rw [hfe]
  exact ⟨hiff, hnm, rfl, rfl⟩

/-- C9 witness: user `"bob"` has an editor save but no command record, so is
absent from the UID set and changes neither count. -/
theorem getUIDs_from_commands_only_witness :
    getUIDsRel [cm1] ["u"]
    ∧ (∀ c ∈ ([cm1] : List REPLCommand), c.UID ≠ "bob")
    ∧ "bob" ∉ (["u"] : List String)
    ∧ editorUse [{ UID := "bob", Timestamp := 7, Content := "code" }] ["u"]
        = editorUse [{ UID := "bob", Timestamp := 7, Content := "code" }]
            ((["u"] : List String).filter (fun v => v ≠ "bob")) := by
  refine ⟨by decide, by decide, ?_, ?_⟩
  · exact (getUIDs_from_commands_only [cm1]
      [{ UID := "bob", Timestamp := 7, Content := "code" }] ["u"] "bob"
      (by decide) (by decide)).2.1
  · exact (getUIDs_from_commands_only [cm1]
      [{ UID := "bob", Timestamp := 7, Content := "code" }] ["u"] "bob"
      (by decide) (by decide)).2.2.1
